import Mathlib

/-!
Digraph.hpp : a shallow embedding of the adjacency-list directed graph.

The class template `Digraph<VertexInfo, EdgeInfo>` keeps one member,
`std::map<int, DigraphVertex<VertexInfo, EdgeInfo>> digraphMap`.  The map is
embedded as the list of its entries in iteration order (ascending keys); the
functions on it below are total on every list and keep the ordering.

Conventions of the embedding.

* Vertex numbers are C++ `int`; no arithmetic is done on them, so they are
  embedded as `Int`.  Container sizes are embedded as `Nat` (their conversion
  to `int` is exact for containers of fewer than 2^31 elements).
* Every exception that leaves a member function is a `DigraphException`
  (each body is wrapped in `try ... catch (...) { throw DigraphException{..}; }`);
  the message text is not modelled.
* `digraphMap.find(k)` on a missing key returns `end()`.  Reading through that
  iterator throws nothing.  In libstdc++ `end()` points at the header node of the
  red-black tree, and the slot that `->first` reads there holds the node count
  (`_M_node_count`, bits/stl_tree.h): the key read through `end()` is the number
  of vertices.  This is `mapFindKey`, used where the code compares
  `find(k)->first` with `k` (addVertex, addEdge, edges(int), vertexInfo).
  Whatever is read or written through `end()->second` is not determined by the
  table: a value returned from there is `Outcome.unspecified` (edges(int),
  vertexInfo, edgeCount(int)), a list traversed or written there is
  `Effect.undefined` (addEdge).
* A bare `throw;` evaluated while no exception is being handled calls
  `std::terminate()` (C++ [expr.throw]); the enclosing `catch (...)` is not
  entered.  This is `Effect.terminated`.  Calls are taken to be made outside of
  any exception handler of the caller.
-/

namespace DigraphHpp

/-- DigraphEdge of the source: from vertex, to vertex and the edge payload. -/
structure DigraphEdge (EdgeInfo : Type) where
  fromVertex : Int
  toVertex : Int
  einfo : EdgeInfo
deriving DecidableEq, Repr

/-- DigraphVertex of the source: the vertex payload and the list of outgoing edges. -/
structure DigraphVertex (VertexInfo EdgeInfo : Type) where
  vinfo : VertexInfo
  edges : List (DigraphEdge EdgeInfo)
deriving DecidableEq, Repr

/-- Digraph of the source: its only member is the vertex table digraphMap. -/
structure Digraph (VertexInfo EdgeInfo : Type) where
  digraphMap : List (Int × DigraphVertex VertexInfo EdgeInfo)
deriving DecidableEq, Repr

/-- Result of a const member function: a returned value, a DigraphException, or
data read through the past-the-end iterator. -/
inductive Outcome (α : Type) where
  | ok (a : α)
  | raised
  | unspecified
deriving DecidableEq, Repr

/-- Result of a mutating member function, with the graph it leaves behind: normal
return, a DigraphException reaching the caller, a call of std::terminate, or a
traversal or write through the past-the-end iterator, after which the behaviour of
the program is undefined. -/
inductive Effect (σ : Type) where
  | ok (s : σ)
  | raised (s : σ)
  | terminated
  | undefined
deriving DecidableEq, Repr

section StdMap

variable {β : Type}

/-- The node reached by `m.find(k)`: the value stored under k, or none for end(). -/
def mapFind : List (Int × β) → Int → Option β
  | [], _ => none
  | (k', b) :: rest, k => if k' = k then some b else mapFind rest k

/-- The key read by `m.find(k)->first`: k itself when k is found; for a missing k
the read goes through end() and gives the node count of the table (exact for
fewer than 2^31 entries). -/
def mapFindKey (m : List (Int × β)) (k : Int) : Int :=
  match mapFind m k with
  | some _ => k
  | none => (m.length : Int)

/-- The value of `m.count(k)`. -/
def mapCount (m : List (Int × β)) (k : Int) : Nat :=
  match mapFind m k with
  | some _ => 1
  | none => 0

/-- The map after `m.erase(k)`. -/
def mapErase (m : List (Int × β)) (k : Int) : List (Int × β) :=
  m.filter (fun p => p.1 ≠ k)

/-- The map after `m.insert({k, b})`: a new node in key order, nothing when k is there. -/
def mapInsert : List (Int × β) → Int → β → List (Int × β)
  | [], k, b => [(k, b)]
  | (k', b') :: rest, k, b =>
    if k < k' then (k, b) :: (k', b') :: rest
    else if k = k' then (k', b') :: rest
    else (k', b') :: mapInsert rest k b

/-- The map after a write through `m.find(k)->second`, for a key that is found. -/
def mapModify : List (Int × β) → Int → (β → β) → List (Int × β)
  | [], _, _ => []
  | (k', b) :: rest, k, f =>
    if k' = k then (k', f b) :: rest else (k', b) :: mapModify rest k f

end StdMap

namespace Digraph

variable {V E : Type}

/-- The default constructor: no vertices, no edges. -/
def empty : Digraph V E := ⟨[]⟩

/-- The pair pushed for an edge by edges() and edges(int). -/
def edgePair (e : DigraphEdge E) : Int × Int := (e.fromVertex, e.toVertex)

/-- Source vertices(): the keys of the table, in iteration order. -/
def vertices (g : Digraph V E) : List Int :=
  if g.digraphMap.length = 0 then []
  else g.digraphMap.map (fun vertex => vertex.1)

/-- Source edges(): for every vertex in turn, the pair of every edge in its list. -/
def edges (g : Digraph V E) : List (Int × Int) :=
  if g.digraphMap.length = 0 then []
  else g.digraphMap.flatMap (fun vertex => vertex.2.edges.map edgePair)

/-- Source edges(int vertex): raises when `find(vertex)->first != vertex`, else
gives the pairs of the edges in the list at `find(vertex)->second`; for a missing
vertex that passes the test the list is read through end(). -/
def edgesOf (g : Digraph V E) (vertex : Int) : Outcome (List (Int × Int)) :=
  if mapFindKey g.digraphMap vertex ≠ vertex then Outcome.raised
  else
    match mapFind g.digraphMap vertex with
    | some v => Outcome.ok (v.edges.map edgePair)
    | none => Outcome.unspecified

/-- Source vertexInfo(int vertex): raises when `find(vertex)->first != vertex`,
else returns `find(vertex)->second.vinfo`; for a missing vertex that passes the
test the payload is read through end(). -/
def vertexInfo (g : Digraph V E) (vertex : Int) : Outcome V :=
  if mapFindKey g.digraphMap vertex ≠ vertex then Outcome.raised
  else
    match mapFind g.digraphMap vertex with
    | some v => Outcome.ok v.vinfo
    | none => Outcome.unspecified

/-- Source edgeInfo(int fromVertex, int toVertex). -/
def edgeInfo (g : Digraph V E) (fromVertex toVertex : Int) : Outcome E :=
  if mapCount g.digraphMap fromVertex = 0 ∨ mapCount g.digraphMap toVertex = 0 then
    Outcome.raised
  else
    match mapFind g.digraphMap fromVertex with
    | none => Outcome.raised
    | some v =>
      if v.edges.length = 0 then Outcome.raised
      else
        match v.edges.find? (fun edge => edge.fromVertex = fromVertex ∧ edge.toVertex = toVertex) with
        | some edge => Outcome.ok edge.einfo
        | none => Outcome.raised

/-- Source addVertex(int vertex, const VertexInfo& vinfo): when
`find(vertex)->first == vertex` the bare `throw;` runs, otherwise a vertex with an
empty edge list is inserted. -/
def addVertex (g : Digraph V E) (vertex : Int) (vinfo : V) : Effect (Digraph V E) :=
  if mapFindKey g.digraphMap vertex = vertex then Effect.terminated
  else Effect.ok ⟨mapInsert g.digraphMap vertex ⟨vinfo, []⟩⟩

/-- The statement `digraphMap.find(fromVertex)->second.edges.push_back(newEdge)`. -/
def pushEdge (g : Digraph V E) (fromVertex toVertex : Int) (einfo : E) : Digraph V E :=
  ⟨mapModify g.digraphMap fromVertex
    (fun v => { v with edges := v.edges ++ [⟨fromVertex, toVertex, einfo⟩] })⟩

/-- Source addEdge(int fromVertex, int toVertex, const EdgeInfo& einfo): when
`find(fromVertex)->first == fromVertex && find(toVertex)->first == toVertex` the
list at `find(fromVertex)->second` is searched for the edge and the new edge is
pushed; otherwise the call raises.  For a missing fromVertex that passes the test
the list is traversed and written through end(). -/
def addEdge (g : Digraph V E) (fromVertex toVertex : Int) (einfo : E) : Effect (Digraph V E) :=
  if mapFindKey g.digraphMap fromVertex = fromVertex ∧
      mapFindKey g.digraphMap toVertex = toVertex then
    match mapFind g.digraphMap fromVertex with
    | none => Effect.undefined
    | some v =>
      if v.edges.length = 0 then
        Effect.ok (pushEdge g fromVertex toVertex einfo)
      else if v.edges.any (fun edge => edge.fromVertex = fromVertex ∧ edge.toVertex = toVertex) then
        Effect.raised g
      else
        Effect.ok (pushEdge g fromVertex toVertex einfo)
  else Effect.raised g

/-- The loop of removeVertex over the nodes in the iterator range [first, last),
given as positions in iteration order: each visited node gets its edge list
replaced by the edges whose toVertex is not the removed vertex. -/
def dropIncoming (m : List (Int × DigraphVertex V E)) (vertex : Int) (first last : Nat) :
    List (Int × DigraphVertex V E) :=
  m.enum.map (fun iv =>
    if first ≤ iv.1 ∧ iv.1 < last then
      (iv.2.1, { iv.2.2 with edges := iv.2.2.edges.filter (fun edge => edge.toVertex ≠ vertex) })
    else iv.2)

/-- Source removeVertex(int vertex): the node is erased, then the loop
`for (auto v = digraphMap.begin(); v != digraphMap.begin(); v++)` runs, whose
range starts and stops at begin(). -/
def removeVertex (g : Digraph V E) (vertex : Int) : Effect (Digraph V E) :=
  if mapCount g.digraphMap vertex = 0 then Effect.raised g
  else Effect.ok ⟨dropIncoming (mapErase g.digraphMap vertex) vertex 0 0⟩

/-- Source removeEdge(int fromVertex, int toVertex): the list of fromVertex is
rebuilt from the edges with `edge.fromVertex != fromVertex && edge.fromVertex != toVertex`
and stored when its size differs from the old one. -/
def removeEdge (g : Digraph V E) (fromVertex toVertex : Int) : Effect (Digraph V E) :=
  if mapCount g.digraphMap fromVertex = 0 ∨ mapCount g.digraphMap toVertex = 0 then
    Effect.raised g
  else
    match mapFind g.digraphMap fromVertex with
    | none => Effect.raised g
    | some v =>
      let edgesWithoutVertex :=
        v.edges.filter (fun edge => edge.fromVertex ≠ fromVertex ∧ edge.fromVertex ≠ toVertex)
      if v.edges.length = edgesWithoutVertex.length then Effect.raised g
      else Effect.ok ⟨mapModify g.digraphMap fromVertex
        (fun w => { w with edges := edgesWithoutVertex })⟩

/-- Source vertexCount(). -/
def vertexCount (g : Digraph V E) : Nat :=
  if g.digraphMap.length = 0 then 0 else g.digraphMap.length

/-- Source edgeCount(): the sizes of all edge lists added up. -/
def edgeCount (g : Digraph V E) : Nat :=
  if g.digraphMap.isEmpty then 0
  else g.digraphMap.foldl (fun totalEdgeCount vertex => totalEdgeCount + vertex.2.edges.length) 0

/-- Source edgeCount(int vertex): `digraphMap.find(vertex)->second.edges.size()`
with no test that the vertex was found. -/
def edgeCountOf (g : Digraph V E) (vertex : Int) : Outcome Nat :=
  match mapFind g.digraphMap vertex with
  | none => Outcome.unspecified
  | some v => Outcome.ok v.edges.length

/-- One call of a mutating member function, as a client makes it. -/
inductive Op (V E : Type) where
  | addVertex (vertex : Int) (vinfo : V)
  | addEdge (fromVertex toVertex : Int) (einfo : E)
  | removeVertex (vertex : Int)
  | removeEdge (fromVertex toVertex : Int)
deriving DecidableEq, Repr

/-- The effect of one call on a graph. -/
def call (g : Digraph V E) : Op V E → Effect (Digraph V E)
  | Op.addVertex vertex vinfo => g.addVertex vertex vinfo
  | Op.addEdge fromVertex toVertex einfo => g.addEdge fromVertex toVertex einfo
  | Op.removeVertex vertex => g.removeVertex vertex
  | Op.removeEdge fromVertex toVertex => g.removeEdge fromVertex toVertex

/-- A client making the calls in turn and catching every DigraphException: the
graph after the last call, or none when a call ended the program or left its
behaviour undefined. -/
def calls (g : Digraph V E) : List (Op V E) → Option (Digraph V E)
  | [] => some g
  | op :: rest =>
    match g.call op with
    | Effect.ok g' => calls g' rest
    | Effect.raised g' => calls g' rest
    | Effect.terminated => none
    | Effect.undefined => none

/-- The invariant of the table that the mutating member functions keep: keys in
strictly ascending order (std::map), every edge kept in the list of its own
fromVertex, and no two edges of one list with the same toVertex. -/
def WF (g : Digraph V E) : Prop :=
  g.digraphMap.Pairwise (fun p q => p.1 < q.1) ∧
  ∀ p ∈ g.digraphMap,
    (∀ e ∈ p.2.edges, e.fromVertex = p.1) ∧ (p.2.edges.map (fun e => e.toVertex)).Nodup

instance instDecidableWF (g : Digraph V E) : Decidable g.WF := by
  unfold WF; infer_instance

/-- Every edge kept in the list of a vertex has that vertex as its fromVertex. -/
def OwnEdges (g : Digraph V E) : Prop :=
  ∀ p ∈ g.digraphMap, ∀ e ∈ p.2.edges, e.fromVertex = p.1

instance instDecidableOwnEdges (g : Digraph V E) : Decidable g.OwnEdges := by
  unfold OwnEdges; infer_instance

/-- Vertices 1, 2, 3 with the edges 1 -> 2 and 3 -> 1. -/
def graphInOut : Digraph Unit Nat :=
  ⟨[(1, ⟨(), [⟨1, 2, 10⟩]⟩), (2, ⟨(), []⟩), (3, ⟨(), [⟨3, 1, 20⟩]⟩)]⟩

/-- The calls that build graphInOut from the empty graph. -/
def buildInOut : List (Op Unit Nat) :=
  [Op.addVertex 1 (), Op.addVertex 2 (), Op.addVertex 3 (), Op.addEdge 1 2 10, Op.addEdge 3 1 20]

/-- Vertices 1, 2, 3 with the edges 1 -> 2 and 1 -> 3. -/
def graphFork : Digraph Unit Nat :=
  ⟨[(1, ⟨(), [⟨1, 2, 10⟩, ⟨1, 3, 20⟩]⟩), (2, ⟨(), []⟩), (3, ⟨(), []⟩)]⟩

/-- The calls that build graphFork from the empty graph. -/
def buildFork : List (Op Unit Nat) :=
  [Op.addVertex 1 (), Op.addVertex 2 (), Op.addVertex 3 (), Op.addEdge 1 2 10, Op.addEdge 1 3 20]

/-- Vertices 1, 2, 3 with the single edge 1 -> 2. -/
def graphOneEdge : Digraph Unit Nat :=
  ⟨[(1, ⟨(), [⟨1, 2, 10⟩]⟩), (2, ⟨(), []⟩), (3, ⟨(), []⟩)]⟩

/-- The calls that build graphOneEdge from the empty graph. -/
def buildOneEdge : List (Op Unit Nat) :=
  [Op.addVertex 1 (), Op.addVertex 2 (), Op.addVertex 3 (), Op.addEdge 1 2 10]

/-- Vertices 1, 2, 3 with the single edge 1 -> 3. -/
def graphOther : Digraph Unit Nat :=
  ⟨[(1, ⟨(), [⟨1, 3, 20⟩]⟩), (2, ⟨(), []⟩), (3, ⟨(), []⟩)]⟩

/-- The calls that build graphOther from the empty graph. -/
def buildOther : List (Op Unit Nat) :=
  [Op.addVertex 1 (), Op.addVertex 2 (), Op.addVertex 3 (), Op.addEdge 1 3 20]

/-- The single vertex 1 with payload 5. -/
def graphSingle : Digraph Nat Nat := ⟨[(1, ⟨5, []⟩)]⟩

/-- Vertices 5 and 7, no edges. -/
def graphPair : Digraph Unit Nat := ⟨[(5, ⟨(), []⟩), (7, ⟨(), []⟩)]⟩

/-- The calls that build graphPair from the empty graph. -/
def buildPair : List (Op Unit Nat) := [Op.addVertex 5 (), Op.addVertex 7 ()]

/-- Calls after buildFork: a repeated addEdge (raises), a removal of vertex 3 that
leaves the edge 1 -> 3 behind, vertex 3 added again, the edge 1 -> 3 tried again
(raises) and a new edge 2 -> 1. -/
def callsRetry : List (Op Unit Nat) :=
  buildFork ++ [Op.addEdge 1 2 30, Op.removeVertex 3, Op.addVertex 3 (), Op.addEdge 1 3 40,
    Op.addEdge 2 1 50]

/-- Calls after buildPair: the edge 5 -> 2 to the missing vertex 2, which the
table of two vertices lets through, tried twice (the second call raises). -/
def callsDangling : List (Op Unit Nat) :=
  buildPair ++ [Op.addEdge 5 2 9, Op.addEdge 5 2 9]

/-- The graph that callsDangling reaches from the empty graph. -/
def graphDangling : Digraph Unit Nat := ⟨[(5, ⟨(), [⟨5, 2, 9⟩]⟩), (7, ⟨(), []⟩)]⟩

/-- The graph that callsRetry reaches from the empty graph. -/
def graphRetry : Digraph Unit Nat :=
  ⟨[(1, ⟨(), [⟨1, 2, 10⟩, ⟨1, 3, 20⟩]⟩), (2, ⟨(), [⟨2, 1, 50⟩]⟩), (3, ⟨(), []⟩)]⟩

/-- Source isStronglyConnected(): the whole body is `return false;`; the graph
is not read. -/
def isStronglyConnected (_g : Digraph V E) : Bool :=
  false

/-- Source findShortestPaths(int startVertex, edgeWeightFunc): the whole body is
`return std::map<int, int>{};`.  The returned map is the list of its entries
(key, predecessor).  The weight function returns double in the source; the body
never calls it, and it is taken over the rationals here. -/
def findShortestPaths (_g : Digraph V E) (_startVertex : Int) (_edgeWeightFunc : E → ℚ) :
    Outcome (List (Int × Int)) :=
  Outcome.ok []

/-- Source copy constructor `Digraph(const Digraph& d) : digraphMap{d.digraphMap}`:
the new object. -/
def copyConstruct (d : Digraph V E) : Digraph V E := ⟨d.digraphMap⟩

/-- Source move constructor `Digraph(Digraph&& d)`: the member of the new object
starts empty and is cleared, then `std::swap(digraphMap, d.digraphMap)` runs.
Returns the new object and d after the call. -/
def moveConstruct (d : Digraph V E) : Digraph V E × Digraph V E :=
  let cleared : Digraph V E := ⟨[]⟩
  (⟨d.digraphMap⟩, ⟨cleared.digraphMap⟩)

/-- The Digraph objects of a program, by address: what the tests `this != &d` of
the assignment operators compare. -/
def Store (V E : Type) : Type := Nat → Digraph V E

/-- The store with the object at address a replaced. -/
def Store.set (h : Store V E) (a : Nat) (g : Digraph V E) : Store V E :=
  fun b => if b = a then g else h b

/-- Source copy assignment `operator=(const Digraph& d)` on the object at address
self with the argument at address d: unless they are the same object, clear()
and then `digraphMap = d.digraphMap`. -/
def copyAssign (h : Store V E) (self d : Nat) : Store V E :=
  if self ≠ d then
    let h1 := h.set self ⟨[]⟩
    h1.set self ⟨(h1 d).digraphMap⟩
  else h

/-- Source move assignment `operator=(Digraph&& d)` on the object at address self
with the argument at address d: unless they are the same object, clear() and then
`std::swap(digraphMap, d.digraphMap)`. -/
def moveAssign (h : Store V E) (self d : Nat) : Store V E :=
  if self ≠ d then
    let h1 := h.set self ⟨[]⟩
    let mine := (h1 self).digraphMap
    let theirs := (h1 d).digraphMap
    (h1.set self ⟨theirs⟩).set d ⟨mine⟩
  else h

/-- A client making the calls in turn on the object at address a. -/
def callsAt (h : Store V E) (a : Nat) (ops : List (Op V E)) : Option (Store V E) :=
  (calls (h a) ops).map (fun g => h.set a g)

/-- In the words of the specification (no code of the source computes it): there is a
directed path from u to w along pairs of edges(), of any length, zero included. -/
def specReaches (g : Digraph V E) (u w : Int) : Prop :=
  Relation.ReflTransGen (fun a b => (a, b) ∈ g.edges) u w

/-- In the words of the specification: every ordered pair of vertices is joined by a
directed path. -/
def specStronglyConnected (g : Digraph V E) : Prop :=
  ∀ u ∈ g.vertices, ∀ w ∈ g.vertices, g.specReaches u w

/-- Vertices 1, 2, 3 with the cycle 1 -> 2 -> 3 -> 1. -/
def graphCycle : Digraph Unit Nat :=
  ⟨[(1, ⟨(), [⟨1, 2, 10⟩]⟩), (2, ⟨(), [⟨2, 3, 20⟩]⟩), (3, ⟨(), [⟨3, 1, 30⟩]⟩)]⟩

/-- The calls that build graphCycle from the empty graph. -/
def buildCycle : List (Op Unit Nat) :=
  [Op.addVertex 1 (), Op.addVertex 2 (), Op.addVertex 3 (), Op.addEdge 1 2 10, Op.addEdge 2 3 20,
    Op.addEdge 3 1 30]

/-- Vertices 1, 2, 3, 4 with the edges 1 -> 2 (1), 2 -> 3 (2), 1 -> 3 (5), 3 -> 4 (1);
the edge payload is the weight. -/
def graphPaths : Digraph Unit Nat :=
  ⟨[(1, ⟨(), [⟨1, 2, 1⟩, ⟨1, 3, 5⟩]⟩), (2, ⟨(), [⟨2, 3, 2⟩]⟩), (3, ⟨(), [⟨3, 4, 1⟩]⟩),
    (4, ⟨(), []⟩)]⟩

/-- The calls that build graphPaths from the empty graph. -/
def buildPaths : List (Op Unit Nat) :=
  [Op.addVertex 1 (), Op.addVertex 2 (), Op.addVertex 3 (), Op.addVertex 4 (), Op.addEdge 1 2 1,
    Op.addEdge 2 3 2, Op.addEdge 1 3 5, Op.addEdge 3 4 1]

/-- The graph graphPaths with the isolated vertex 5 added. -/
def graphIsolated : Digraph Unit Nat :=
  ⟨graphPaths.digraphMap ++ [(5, ⟨(), []⟩)]⟩

/-- The weight function of the examples: the payload itself. -/
def weightOf (n : Nat) : ℚ := n

/-- A store with graphFork at address 0 and graphOneEdge everywhere else. -/
def storeTwo : Store Unit Nat :=
  fun a => if a = 0 then graphFork else graphOneEdge

end Digraph

/-! ## The table functions -/

section StdMapLemmas

variable {β : Type}

theorem mapFind_eq_none {m : List (Int × β)} {k : Int} :
    mapFind m k = none ↔ k ∉ m.map Prod.fst := by
  induction m with
  | nil => simp [mapFind]
  | cons p rest ih =>
    obtain ⟨k', b⟩ := p
    by_cases h : k' = k
    · simp [mapFind, h]
    · have h' : ¬ k = k' := fun e => h e.symm
      simp [mapFind, h, h', ih]

theorem mapFind_mem {m : List (Int × β)} {k : Int} {b : β} (h : mapFind m k = some b) :
    (k, b) ∈ m := by
  induction m with
  | nil => simp [mapFind] at h
  | cons p rest ih =>
    obtain ⟨k', b'⟩ := p
    by_cases hk : k' = k
    · simp [mapFind, hk] at h
      simp [hk, h]
    · simp [mapFind, hk] at h
      exact List.mem_cons_of_mem _ (ih h)

theorem mapFind_of_mem {m : List (Int × β)} {k : Int} {b : β}
    (hm : m.Pairwise (fun p q => p.1 < q.1)) (h : (k, b) ∈ m) : mapFind m k = some b := by
  induction m with
  | nil => simp at h
  | cons p rest ih =>
    obtain ⟨k', b'⟩ := p
    rw [List.pairwise_cons] at hm
    rcases List.mem_cons.1 h with h1 | h1
    · cases h1
      simp [mapFind]
    · have hlt : k' < k := hm.1 _ h1
      have hne : ¬ k' = k := ne_of_lt hlt
      simp [mapFind, hne, ih hm.2 h1]

theorem mapFindKey_of_some {m : List (Int × β)} {k : Int} {b : β}
    (h : mapFind m k = some b) : mapFindKey m k = k := by
  simp [mapFindKey, h]

theorem mapCount_eq_zero {m : List (Int × β)} {k : Int} :
    mapCount m k = 0 ↔ k ∉ m.map Prod.fst := by
  rw [← mapFind_eq_none]
  unfold mapCount
  cases mapFind m k <;> simp

theorem mapFind_mapInsert_self {m : List (Int × β)} {k : Int} {b : β}
    (h : mapFind m k = none) : mapFind (mapInsert m k b) k = some b := by
  induction m with
  | nil => simp [mapInsert, mapFind]
  | cons p rest ih =>
    obtain ⟨k', b'⟩ := p
    by_cases hk : k' = k
    · simp [mapFind, hk] at h
    · simp only [mapFind, hk, if_false] at h
      have hk' : ¬ k = k' := fun e => hk e.symm
      by_cases hlt : k < k'
      · simp [mapInsert, hlt, mapFind]
      · simp [mapInsert, hlt, hk', mapFind, hk, ih h]

theorem mapFind_mapInsert_ne {m : List (Int × β)} {k k2 : Int} {b : β} (hne : k ≠ k2) :
    mapFind (mapInsert m k b) k2 = mapFind m k2 := by
  induction m with
  | nil => simp [mapInsert, mapFind, hne]
  | cons p rest ih =>
    obtain ⟨k', b'⟩ := p
    by_cases hlt : k < k'
    · simp [mapInsert, hlt, mapFind, hne]
    · by_cases hk : k = k'
      · simp [mapInsert, hlt, hk]
      · simp [mapInsert, hlt, hk, mapFind, ih]

theorem length_mapInsert {m : List (Int × β)} {k : Int} {b : β}
    (h : mapFind m k = none) : (mapInsert m k b).length = m.length + 1 := by
  induction m with
  | nil => simp [mapInsert]
  | cons p rest ih =>
    obtain ⟨k', b'⟩ := p
    by_cases hk : k' = k
    · simp [mapFind, hk] at h
    · simp only [mapFind, hk, if_false] at h
      have hk' : ¬ k = k' := fun e => hk e.symm
      by_cases hlt : k < k'
      · simp [mapInsert, hlt]
      · simp [mapInsert, hlt, hk', ih h]

theorem mapFind_mapModify_self {m : List (Int × β)} {k : Int} {f : β → β} :
    mapFind (mapModify m k f) k = (mapFind m k).map f := by
  induction m with
  | nil => simp [mapModify, mapFind]
  | cons p rest ih =>
    obtain ⟨k', b'⟩ := p
    by_cases hk : k' = k
    · simp [mapModify, mapFind, hk]
    · simp [mapModify, mapFind, hk, ih]

theorem mapFind_mapModify_ne {m : List (Int × β)} {k k2 : Int} {f : β → β} (hne : k ≠ k2) :
    mapFind (mapModify m k f) k2 = mapFind m k2 := by
  induction m with
  | nil => simp [mapModify, mapFind]
  | cons p rest ih =>
    obtain ⟨k', b'⟩ := p
    by_cases hk : k' = k
    · have : ¬ k' = k2 := fun e => hne (hk ▸ e)
      simp [mapModify, mapFind, hk, hne]
    · simp [mapModify, mapFind, hk, ih]

theorem keys_mapModify {m : List (Int × β)} {k : Int} {f : β → β} :
    (mapModify m k f).map Prod.fst = m.map Prod.fst := by
  induction m with
  | nil => simp [mapModify]
  | cons p rest ih =>
    obtain ⟨k', b'⟩ := p
    by_cases hk : k' = k
    · simp [mapModify, hk]
    · simp [mapModify, hk, ih]

theorem length_mapModify {m : List (Int × β)} {k : Int} {f : β → β} :
    (mapModify m k f).length = m.length := by
  have h := congrArg List.length (keys_mapModify (m := m) (k := k) (f := f))
  simpa using h

theorem mapFind_mapErase_ne {m : List (Int × β)} {k k2 : Int} (hne : k ≠ k2) :
    mapFind (mapErase m k) k2 = mapFind m k2 := by
  induction m with
  | nil => simp [mapErase, mapFind]
  | cons p rest ih =>
    obtain ⟨k', b'⟩ := p
    simp only [mapErase] at ih ⊢
    by_cases hk : k' = k
    · have h2 : ¬ k = k2 := hne
      simp [List.filter_cons, hk, mapFind, h2]
      simpa using ih
    · by_cases hk2 : k' = k2
      · have h3 : ¬ k2 = k := fun e => hne e.symm
        simp [List.filter_cons, mapFind, hk2, h3]
      · simp [List.filter_cons, hk, mapFind, hk2]
        simpa using ih

end StdMapLemmas

namespace Digraph

variable {V E : Type}

theorem vertices_eq (g : Digraph V E) : g.vertices = g.digraphMap.map Prod.fst := by
  unfold vertices
  cases h : g.digraphMap <;> simp

theorem edges_eq (g : Digraph V E) :
    g.edges = g.digraphMap.flatMap (fun vertex => vertex.2.edges.map edgePair) := by
  unfold edges
  cases h : g.digraphMap <;> simp

theorem vertexCount_eq (g : Digraph V E) : g.vertexCount = g.digraphMap.length := by
  unfold vertexCount
  cases h : g.digraphMap <;> simp

theorem foldl_edge_sizes (m : List (Int × DigraphVertex V E)) (n : Nat) :
    m.foldl (fun totalEdgeCount vertex => totalEdgeCount + vertex.2.edges.length) n
      = n + (m.map (fun vertex => vertex.2.edges.length)).sum := by
  induction m generalizing n with
  | nil => simp
  | cons p rest ih => simp [ih, Nat.add_assoc]

theorem edgeCount_eq (g : Digraph V E) :
    g.edgeCount = (g.digraphMap.map (fun vertex => vertex.2.edges.length)).sum := by
  unfold edgeCount
  cases h : g.digraphMap with
  | nil => simp
  | cons p rest => simp [foldl_edge_sizes]

theorem dropIncoming_empty_range (m : List (Int × DigraphVertex V E)) (vertex : Int) :
    dropIncoming m vertex 0 0 = m := by
  simp [dropIncoming]

theorem mem_vertices_iff {g : Digraph V E} {k : Int} :
    k ∈ g.vertices ↔ ∃ v, mapFind g.digraphMap k = some v := by
  rw [vertices_eq]
  constructor
  · intro h
    cases hf : mapFind g.digraphMap k with
    | none => exact absurd h (mapFind_eq_none.1 hf)
    | some v => exact ⟨v, rfl⟩
  · rintro ⟨v, hv⟩
    by_contra hc
    rw [← mapFind_eq_none, hv] at hc
    exact Option.noConfusion hc

theorem vertexInfo_of_found {g : Digraph V E} {v : Int} {x : DigraphVertex V E}
    (hx : mapFind g.digraphMap v = some x) : g.vertexInfo v = Outcome.ok x.vinfo := by
  simp [vertexInfo, mapFindKey, hx]

theorem edgesOf_of_found {g : Digraph V E} {v : Int} {x : DigraphVertex V E}
    (hx : mapFind g.digraphMap v = some x) :
    g.edgesOf v = Outcome.ok (x.edges.map edgePair) := by
  simp [edgesOf, mapFindKey, hx]

theorem vertexInfo_congr {g1 g2 : Digraph V E} {v : Int}
    (hlen : g1.digraphMap.length = g2.digraphMap.length)
    (h : (mapFind g1.digraphMap v).map (fun x => x.vinfo)
      = (mapFind g2.digraphMap v).map (fun x => x.vinfo)) :
    g1.vertexInfo v = g2.vertexInfo v := by
  unfold vertexInfo mapFindKey
  cases h1 : mapFind g1.digraphMap v <;> cases h2 : mapFind g2.digraphMap v <;>
    simp_all

theorem edgesOf_congr {g1 g2 : Digraph V E} {v : Int}
    (hlen : g1.digraphMap.length = g2.digraphMap.length)
    (h : mapFind g1.digraphMap v = mapFind g2.digraphMap v) :
    g1.edgesOf v = g2.edgesOf v := by
  unfold edgesOf mapFindKey
  rw [h, hlen]

end Digraph

/-! ## Removal: removeVertex and removeEdge -/

namespace Digraph

/-- C1 fails on the code. On the graph with vertices 1, 2, 3 and edges 1 -> 2,
3 -> 1 (built through the interface), removeVertex(1) returns normally and 1 is no
longer in vertices(), but edges() still lists the incoming edge (3,1): the loop
that should drop incoming edges runs over the empty range [begin(), begin()). -/
theorem C1_removeVertex_keeps_incoming_edge :
    calls empty buildInOut = some graphInOut ∧
    ∃ g', graphInOut.removeVertex 1 = Effect.ok g' ∧
      1 ∉ g'.vertices ∧ g'.edges = [(3, 1)] := by
  refine ⟨by decide, ⟨[(2, ⟨(), []⟩), (3, ⟨(), [⟨3, 1, 20⟩]⟩)]⟩, by decide, by decide, by decide⟩

/-- C2 fails on the code. The calls addVertex 1, 2, 3, addEdge(1,2), addEdge(3,1),
removeVertex(1), all returning normally, reach a graph whose edges() holds (3,1)
while 1 is not in vertices(): a dangling edge. -/
theorem C2_dangling_edge_reachable :
    ∃ g : Digraph Unit Nat, calls empty (buildInOut ++ [Op.removeVertex 1]) = some g ∧
      (3, 1) ∈ g.edges ∧ 1 ∉ g.vertices := by
  refine ⟨⟨[(2, ⟨(), []⟩), (3, ⟨(), [⟨3, 1, 20⟩]⟩)]⟩, by decide, by decide, by decide⟩

/-- C3 fails on the code. On the graph with vertices 1, 2, 3 and edges 1 -> 2,
1 -> 3, removeEdge(1,2) returns normally and leaves no edge at all: the other edge
(1,3) leaving vertex 1 is deleted with it. -/
theorem C3_removeEdge_deletes_sibling_edges :
    calls empty buildFork = some graphFork ∧
    (1, 3) ∈ graphFork.edges ∧
    ∃ g', graphFork.removeEdge 1 2 = Effect.ok g' ∧ g'.edges = [] ∧
      g'.edgeInfo 1 3 = Outcome.raised := by
  refine ⟨by decide, by decide,
    ⟨[(1, ⟨(), []⟩), (2, ⟨(), []⟩), (3, ⟨(), []⟩)]⟩, by decide, by decide, by decide⟩

/-- C4 fails on the code. On the graph with vertices 1, 2, 3 and the single edge
1 -> 2, there is no edge (1,3), yet removeEdge(1,3) raises nothing: it returns
normally and deletes the edge (1,2). -/
theorem C4_removeEdge_missing_edge_returns :
    calls empty buildOneEdge = some graphOneEdge ∧
    (1, 3) ∉ graphOneEdge.edges ∧
    ∃ g', graphOneEdge.removeEdge 1 3 = Effect.ok g' ∧ g'.edges = [] := by
  refine ⟨by decide, by decide,
    ⟨[(1, ⟨(), []⟩), (2, ⟨(), []⟩), (3, ⟨(), []⟩)]⟩, by decide, by decide⟩

/-- C5 fails on the code. On the graph with vertices 1, 2, 3 and the single edge
1 -> 3 (edgeCount 1, no edge (1,2)), addEdge(1,2,10) followed by removeEdge(1,2)
gives a graph with edgeCount 0, not 1. -/
theorem C5_add_remove_edge_loses_edges :
    calls empty buildOther = some graphOther ∧
    (1, 2) ∉ graphOther.edges ∧ graphOther.edgeCount = 1 ∧
    ∃ g1 g2, graphOther.addEdge 1 2 10 = Effect.ok g1 ∧ g1.removeEdge 1 2 = Effect.ok g2 ∧
      g2.edgeCount = 0 := by
  refine ⟨by decide, by decide, by decide,
    ⟨[(1, ⟨(), [⟨1, 3, 20⟩, ⟨1, 2, 10⟩]⟩), (2, ⟨(), []⟩), (3, ⟨(), []⟩)]⟩,
    ⟨[(1, ⟨(), []⟩), (2, ⟨(), []⟩), (3, ⟨(), []⟩)]⟩, by decide, by decide, by decide⟩

end Digraph

/-! ## addVertex -/

namespace Digraph

variable {V E : Type}

/-- C6 fails on the code. Vertex 0 is not in the empty graph, yet addVertex(0, 7)
does not insert it: `find(0)->first` is read through end() and gives the vertex
count 0, the test `== vertex` holds, and the bare `throw;` ends the program.  The
same happens for the missing vertex 2 on the graph with the two vertices 5 and 7
(built through the interface).  A missing vertex that differs from the vertex
count, such as 4 on the graph with the single vertex 1, is inserted. -/
theorem C6_addVertex_absent_equal_count_terminates :
    (0 : Int) ∉ (empty : Digraph Nat Nat).vertices ∧
    (empty : Digraph Nat Nat).addVertex 0 7 = Effect.terminated ∧
    calls empty buildPair = some graphPair ∧
    (2 : Int) ∉ graphPair.vertices ∧ graphPair.vertexCount = 2 ∧
    graphPair.addVertex 2 () = Effect.terminated ∧
    graphSingle.addVertex 4 9 = Effect.ok ⟨[(1, ⟨5, []⟩), (4, ⟨9, []⟩)]⟩ := by
  refine ⟨by decide, by decide, by decide, by decide, by decide, by decide, by decide⟩

/-- C7 fails on the code. The graph with the single vertex 1 is built by
addVertex(1, 5); a second addVertex(1, 6) reaches the bare `throw;`, which calls
std::terminate because no exception is being handled: no DigraphException reaches
the caller, and no input at all makes addVertex raise one. -/
theorem C7_addVertex_duplicate_terminates :
    calls empty [Op.addVertex 1 5] = some graphSingle ∧
    graphSingle.addVertex 1 6 = Effect.terminated ∧
    ∀ (g s : Digraph Nat Nat) (v : Int) (info : Nat), g.addVertex v info ≠ Effect.raised s := by
  refine ⟨by decide, by decide, ?_⟩
  intro g s v info
  unfold addVertex
  split_ifs <;> simp

end Digraph

/-! ## addEdge -/

section StdMapModify

variable {β : Type}

theorem mapCount_mapModify {m : List (Int × β)} {k k2 : Int} {f : β → β} :
    mapCount (mapModify m k f) k2 = mapCount m k2 := by
  unfold mapCount
  by_cases hk : k = k2
  · subst hk
    rw [mapFind_mapModify_self]
    cases mapFind m k <;> rfl
  · rw [mapFind_mapModify_ne hk]

end StdMapModify

namespace Digraph

variable {V E : Type}

theorem edgeInfo_eq (g : Digraph V E) (fromVertex toVertex : Int) :
    g.edgeInfo fromVertex toVertex =
      if mapCount g.digraphMap toVertex = 0 then Outcome.raised
      else match mapFind g.digraphMap fromVertex with
        | none => Outcome.raised
        | some v =>
          match v.edges.find? (fun edge => edge.fromVertex = fromVertex ∧ edge.toVertex = toVertex) with
          | some edge => Outcome.ok edge.einfo
          | none => Outcome.raised := by
  unfold edgeInfo
  by_cases ht : mapCount g.digraphMap toVertex = 0
  · simp [ht]
  · cases hf : mapFind g.digraphMap fromVertex with
    | none => simp [ht, mapCount, hf]
    | some v =>
      cases hl : v.edges with
      | nil => simp [ht, mapCount, hf, hl]
      | cons e es => simp [ht, mapCount, hf, hl]

theorem edge_sizes_mapModify {m : List (Int × DigraphVertex V E)} {k : Int}
    {f : DigraphVertex V E → DigraphVertex V E} {x : DigraphVertex V E}
    (hx : mapFind m k = some x) :
    ((mapModify m k f).map (fun vertex => vertex.2.edges.length)).sum + x.edges.length
      = (m.map (fun vertex => vertex.2.edges.length)).sum + (f x).edges.length := by
  induction m with
  | nil => simp [mapFind] at hx
  | cons p rest ih =>
    obtain ⟨k', b⟩ := p
    by_cases hk : k' = k
    · simp [mapFind, hk] at hx
      subst hx
      simp [mapModify, hk]
      omega
    · simp [mapFind, hk] at hx
      have := ih hx
      simp [mapModify, hk]
      omega

theorem edges_pushEdge_perm {m : List (Int × DigraphVertex V E)} {fromVertex toVertex : Int}
    {einfo : E} {x : DigraphVertex V E} (hx : mapFind m fromVertex = some x) :
    ((mapModify m fromVertex
        (fun v => { v with edges := v.edges ++ [⟨fromVertex, toVertex, einfo⟩] })).flatMap
      (fun vertex => vertex.2.edges.map edgePair)).Perm
      ((fromVertex, toVertex) :: m.flatMap (fun vertex => vertex.2.edges.map edgePair)) := by
  induction m with
  | nil => simp [mapFind] at hx
  | cons p rest ih =>
    obtain ⟨k', b⟩ := p
    by_cases hk : k' = fromVertex
    · simp only [mapModify, hk, if_true, List.flatMap_cons, List.map_append, List.map_cons,
        List.map_nil, edgePair, List.append_assoc, List.singleton_append]
      exact List.perm_middle
    · simp only [mapFind, hk, if_false] at hx
      simp only [mapModify, hk, if_false, List.flatMap_cons]
      exact ((ih hx).append_left _).trans List.perm_middle

theorem mem_edges_of_find {g : Digraph V E} {k : Int} {x : DigraphVertex V E}
    {e : DigraphEdge E} (hx : mapFind g.digraphMap k = some x) (he : e ∈ x.edges) :
    (e.fromVertex, e.toVertex) ∈ g.edges := by
  rw [edges_eq, List.mem_flatMap]
  exact ⟨(k, x), mapFind_mem hx, List.mem_map.2 ⟨e, he, rfl⟩⟩

theorem addEdge_of_absent {g : Digraph V E} {fromVertex toVertex : Int} {x : DigraphVertex V E}
    (einfo : E) (hx : mapFind g.digraphMap fromVertex = some x)
    (hy : mapFindKey g.digraphMap toVertex = toVertex)
    (hno : ∀ e ∈ x.edges, ¬ (e.fromVertex = fromVertex ∧ e.toVertex = toVertex)) :
    g.addEdge fromVertex toVertex einfo = Effect.ok (pushEdge g fromVertex toVertex einfo) := by
  unfold addEdge
  rw [if_pos ⟨mapFindKey_of_some hx, hy⟩]
  simp only [hx]
  split_ifs with h1 h2
  · rfl
  · exfalso
    rw [List.any_eq_true] at h2
    obtain ⟨e, he, hp⟩ := h2
    exact hno e he (by simpa using hp)
  · rfl

/-- C8. For present vertices fromVertex and toVertex (equal or not) with no edge
(fromVertex, toVertex) in edges(), addEdge returns normally; edgeCount() and
edgeCount(fromVertex) grow by exactly one; edgeInfo(fromVertex, toVertex) returns
the new payload; edges() is the old listing with the new pair added, edgeInfo
answers as before for every other pair, and vertices() and vertexInfo are as
before. -/
theorem C8_addEdge_adds_one_edge (g : Digraph V E) (fromVertex toVertex : Int) (info : E)
    (hf : fromVertex ∈ g.vertices) (ht : toVertex ∈ g.vertices)
    (hno : (fromVertex, toVertex) ∉ g.edges) :
    ∃ g1, g.addEdge fromVertex toVertex info = Effect.ok g1 ∧
      g1.edgeCount = g.edgeCount + 1 ∧
      (∃ n, g.edgeCountOf fromVertex = Outcome.ok n ∧
        g1.edgeCountOf fromVertex = Outcome.ok (n + 1)) ∧
      g1.edgeInfo fromVertex toVertex = Outcome.ok info ∧
      g1.edges.Perm ((fromVertex, toVertex) :: g.edges) ∧
      (∀ f t, (f, t) ≠ (fromVertex, toVertex) → g1.edgeInfo f t = g.edgeInfo f t) ∧
      g1.vertices = g.vertices ∧
      (∀ v, g1.vertexInfo v = g.vertexInfo v) := by
  obtain ⟨x, hx⟩ := mem_vertices_iff.1 hf
  obtain ⟨y, hy⟩ := mem_vertices_iff.1 ht
  have hnone : ∀ e ∈ x.edges, ¬ (e.fromVertex = fromVertex ∧ e.toVertex = toVertex) := by
    rintro e he ⟨h1, h2⟩
    apply hno
    have := mem_edges_of_find hx he
    rwa [h1, h2] at this
  have hfind1 : mapFind (pushEdge g fromVertex toVertex info).digraphMap fromVertex
      = some { x with edges := x.edges ++ [⟨fromVertex, toVertex, info⟩] } := by
    simp [pushEdge, mapFind_mapModify_self, hx]
  have hcount : ∀ k, mapCount (pushEdge g fromVertex toVertex info).digraphMap k
      = mapCount g.digraphMap k := fun k => mapCount_mapModify
  have hfindx : x.edges.find? (fun edge => edge.fromVertex = fromVertex ∧ edge.toVertex = toVertex)
      = none := by
    rw [List.find?_eq_none]
    intro e he
    simpa using hnone e he
  refine ⟨pushEdge g fromVertex toVertex info,
    addEdge_of_absent info hx (mapFindKey_of_some hy) hnone,
    ?_, ?_, ?_, ?_, ?_, ?_, ?_⟩
  · rw [edgeCount_eq, edgeCount_eq]
    have := edge_sizes_mapModify
      (f := fun v => { v with edges := v.edges ++ [⟨fromVertex, toVertex, info⟩] }) hx
    simp only [List.length_append, List.length_singleton] at this
    simp only [pushEdge]
    omega
  · exact ⟨x.edges.length, by simp [edgeCountOf, hx], by simp [edgeCountOf, hfind1]⟩
  · have hty : mapCount g.digraphMap toVertex ≠ 0 := by simp [mapCount, hy]
    rw [edgeInfo_eq, hcount, if_neg hty, hfind1]
    simp only [Bool.decide_and] at hfindx
    simp [List.find?_append, hfindx]
  · rw [edges_eq, edges_eq]
    exact edges_pushEdge_perm hx
  · intro f t hne
    rw [edgeInfo_eq, edgeInfo_eq, hcount]
    by_cases hfe : fromVertex = f
    · subst hfe
      have htne : ¬ toVertex = t := fun e => hne (by rw [e])
      rw [hfind1, hx]
      simp [List.find?_append, htne]
    · simp only [pushEdge, mapFind_mapModify_ne hfe]
  · rw [vertices_eq, vertices_eq]
    exact keys_mapModify
  · intro v
    apply vertexInfo_congr
    · simp only [pushEdge]
      exact length_mapModify
    · by_cases hv : fromVertex = v
      · subst hv
        rw [hfind1, hx]
        rfl
      · simp only [pushEdge, mapFind_mapModify_ne hv]

/-- C8 at a concrete input: the self-loop 1 -> 1 added to the graph with vertices
1, 2, 3 and the edge 1 -> 2. -/
theorem C8_addEdge_adds_one_edge_witness :
    (1 : Int) ∈ graphOneEdge.vertices ∧ ((1 : Int), (1 : Int)) ∉ graphOneEdge.edges ∧
    ∃ g1, graphOneEdge.addEdge 1 1 5 = Effect.ok g1 ∧
      g1.edgeCount = graphOneEdge.edgeCount + 1 ∧
      (∃ n, graphOneEdge.edgeCountOf 1 = Outcome.ok n ∧
        g1.edgeCountOf 1 = Outcome.ok (n + 1)) ∧
      g1.edgeInfo 1 1 = Outcome.ok 5 ∧
      g1.edges.Perm ((1, 1) :: graphOneEdge.edges) ∧
      (∀ f t, (f, t) ≠ ((1 : Int), (1 : Int)) → g1.edgeInfo f t = graphOneEdge.edgeInfo f t) ∧
      g1.vertices = graphOneEdge.vertices ∧
      (∀ v, g1.vertexInfo v = graphOneEdge.vertexInfo v) :=
  ⟨by decide, by decide,
    C8_addEdge_adds_one_edge graphOneEdge 1 1 5 (by decide) (by decide) (by decide)⟩

end Digraph

/-! ## The invariant of the table -/

section StdMapInvariant

variable {β : Type}

theorem mem_mapInsert {m : List (Int × β)} {k : Int} {b : β} {p : Int × β}
    (h : p ∈ mapInsert m k b) : p = (k, b) ∨ p ∈ m := by
  induction m with
  | nil => simpa [mapInsert] using h
  | cons q rest ih =>
    obtain ⟨k', b'⟩ := q
    unfold mapInsert at h
    split_ifs at h with h1 h2
    · simpa using h
    · exact Or.inr h
    · rcases List.mem_cons.1 h with h3 | h3
      · exact Or.inr (by simp [h3])
      · rcases ih h3 with h4 | h4
        · exact Or.inl h4
        · exact Or.inr (List.mem_cons_of_mem _ h4)

theorem pairwise_mapInsert {m : List (Int × β)} {k : Int} {b : β}
    (hm : m.Pairwise (fun p q => p.1 < q.1)) :
    (mapInsert m k b).Pairwise (fun p q => p.1 < q.1) := by
  induction m with
  | nil => simp [mapInsert]
  | cons q rest ih =>
    obtain ⟨k', b'⟩ := q
    rw [List.pairwise_cons] at hm
    unfold mapInsert
    split_ifs with h1 h2
    · refine List.pairwise_cons.2 ⟨?_, List.pairwise_cons.2 hm⟩
      intro a ha
      rcases List.mem_cons.1 ha with h3 | h3
      · simpa [h3] using h1
      · exact lt_trans h1 (hm.1 a h3)
    · exact List.pairwise_cons.2 hm
    · refine List.pairwise_cons.2 ⟨?_, ih hm.2⟩
      intro a ha
      rcases mem_mapInsert ha with h3 | h3
      · have : k' < k := by omega
        simpa [h3] using this
      · exact hm.1 a h3

theorem mem_mapModify {m : List (Int × β)} {k : Int} {f : β → β} {p : Int × β}
    (h : p ∈ mapModify m k f) : p ∈ m ∨ ∃ b, mapFind m k = some b ∧ p = (k, f b) := by
  induction m with
  | nil => simp [mapModify] at h
  | cons q rest ih =>
    obtain ⟨k', b'⟩ := q
    by_cases hk : k' = k
    · simp only [mapModify, hk, if_true] at h
      rcases List.mem_cons.1 h with h3 | h3
      · exact Or.inr ⟨b', by simp [mapFind, hk], h3⟩
      · exact Or.inl (List.mem_cons_of_mem _ h3)
    · simp only [mapModify, hk, if_false] at h
      rcases List.mem_cons.1 h with h3 | h3
      · exact Or.inl (by simp [h3])
      · rcases ih h3 with h4 | ⟨b, hb, hp⟩
        · exact Or.inl (List.mem_cons_of_mem _ h4)
        · exact Or.inr ⟨b, by simp [mapFind, hk, hb], hp⟩

theorem pairwise_mapModify {m : List (Int × β)} {k : Int} {f : β → β}
    (hm : m.Pairwise (fun p q => p.1 < q.1)) :
    (mapModify m k f).Pairwise (fun p q => p.1 < q.1) := by
  have h1 : (m.map Prod.fst).Pairwise (fun a b => a < b) := List.pairwise_map.2 hm
  rw [← keys_mapModify (k := k) (f := f)] at h1
  exact List.pairwise_map.1 h1

end StdMapInvariant

namespace Digraph

variable {V E : Type}

theorem WF_empty : (empty : Digraph V E).WF := by
  simp [WF, empty]

theorem WF_addVertex {g g1 : Digraph V E} {vertex : Int} {vinfo : V} (hg : g.WF)
    (h : g.addVertex vertex vinfo = Effect.ok g1) : g1.WF := by
  unfold addVertex at h
  split_ifs at h
  simp only [Effect.ok.injEq] at h
  subst h
  refine ⟨pairwise_mapInsert hg.1, ?_⟩
  intro p hp
  rcases mem_mapInsert hp with h1 | h1
  · subst h1
    simp
  · exact hg.2 p h1

theorem WF_mapModify_sublist {g : Digraph V E} {k : Int} {x : DigraphVertex V E}
    {es : List (DigraphEdge E)} (hg : g.WF) (hx : mapFind g.digraphMap k = some x)
    (hes : es.Sublist x.edges) :
    (⟨mapModify g.digraphMap k (fun w => { w with edges := es })⟩ : Digraph V E).WF := by
  refine ⟨pairwise_mapModify hg.1, ?_⟩
  intro p hp
  rcases mem_mapModify hp with h1 | ⟨b, hb, h1⟩
  · exact hg.2 p h1
  · subst h1
    have hwf := hg.2 (k, x) (mapFind_mem hx)
    exact ⟨fun e he => hwf.1 e (hes.subset he), hwf.2.sublist (hes.map _)⟩

theorem WF_pushEdge {g : Digraph V E} {fromVertex toVertex : Int} {x : DigraphVertex V E}
    (einfo : E) (hg : g.WF) (hx : mapFind g.digraphMap fromVertex = some x)
    (hno : ∀ e ∈ x.edges, ¬ (e.fromVertex = fromVertex ∧ e.toVertex = toVertex)) :
    (pushEdge g fromVertex toVertex einfo).WF := by
  refine ⟨pairwise_mapModify hg.1, ?_⟩
  intro p hp
  rcases mem_mapModify hp with h1 | ⟨b, hb, h1⟩
  · exact hg.2 p h1
  · subst h1
    rw [hx] at hb
    cases hb
    have hwf := hg.2 (fromVertex, x) (mapFind_mem hx)
    constructor
    · intro e he
      rcases List.mem_append.1 he with h2 | h2
      · exact hwf.1 e h2
      · simp at h2
        simp [h2]
    · simp only [List.map_append, List.map_cons, List.map_nil]
      rw [List.nodup_append]
      refine ⟨hwf.2, by simp, ?_⟩
      intro a ha hb
      simp at hb
      subst hb
      obtain ⟨e, he, rfl⟩ := List.mem_map.1 ha
      exact hno e he ⟨hwf.1 e he, rfl⟩

theorem any_match_iff {x : DigraphVertex V E} {fromVertex toVertex : Int} :
    x.edges.any (fun edge => edge.fromVertex = fromVertex ∧ edge.toVertex = toVertex) = true ↔
      ∃ e ∈ x.edges, e.fromVertex = fromVertex ∧ e.toVertex = toVertex := by
  simp [List.any_eq_true]

theorem WF_addEdge {g g1 : Digraph V E} {fromVertex toVertex : Int} {einfo : E} (hg : g.WF)
    (h : g.addEdge fromVertex toVertex einfo = Effect.ok g1 ∨
      g.addEdge fromVertex toVertex einfo = Effect.raised g1) : g1.WF := by
  unfold addEdge at h
  split_ifs at h with hkeys
  · cases hx : mapFind g.digraphMap fromVertex with
    | none => simp [hx] at h
    | some x =>
      simp only [hx] at h
      split_ifs at h with h1 h2
      · simp at h
        subst h
        refine WF_pushEdge einfo hg hx ?_
        intro e he
        rw [List.length_eq_zero] at h1
        simp [h1] at he
      · simp at h
        subst h
        exact hg
      · simp at h
        subst h
        refine WF_pushEdge einfo hg hx ?_
        intro e he hm
        exact h2 (any_match_iff.2 ⟨e, he, hm⟩)
  · simp at h
    subst h
    exact hg

theorem WF_removeVertex {g g1 : Digraph V E} {vertex : Int} (hg : g.WF)
    (h : g.removeVertex vertex = Effect.ok g1 ∨ g.removeVertex vertex = Effect.raised g1) :
    g1.WF := by
  simp only [removeVertex, dropIncoming_empty_range] at h
  split_ifs at h <;> simp at h <;> subst h
  · exact hg
  · refine ⟨hg.1.filter _, ?_⟩
    intro p hp
    exact hg.2 p (List.mem_filter.1 hp).1

theorem WF_removeEdge {g g1 : Digraph V E} {fromVertex toVertex : Int} (hg : g.WF)
    (h : g.removeEdge fromVertex toVertex = Effect.ok g1 ∨
      g.removeEdge fromVertex toVertex = Effect.raised g1) : g1.WF := by
  simp only [removeEdge] at h
  split_ifs at h
  · simp at h
    subst h
    exact hg
  · split at h
    · simp at h
      subst h
      exact hg
    · rename_i x hx
      split_ifs at h <;> simp at h <;> subst h
      · exact hg
      · exact WF_mapModify_sublist hg hx (List.filter_sublist _)

theorem WF_call {g g1 : Digraph V E} {op : Op V E} (hg : g.WF)
    (h : g.call op = Effect.ok g1 ∨ g.call op = Effect.raised g1) : g1.WF := by
  cases op with
  | addVertex vertex vinfo =>
    rcases h with h | h
    · exact WF_addVertex hg h
    · simp only [call, addVertex] at h
      split_ifs at h
  | addEdge fromVertex toVertex einfo => exact WF_addEdge hg h
  | removeVertex vertex => exact WF_removeVertex hg h
  | removeEdge fromVertex toVertex => exact WF_removeEdge hg h

theorem WF_calls {ops : List (Op V E)} {g g2 : Digraph V E} (hg : g.WF)
    (h : calls g ops = some g2) : g2.WF := by
  induction ops generalizing g with
  | nil =>
    simp only [calls, Option.some.injEq] at h
    subst h
    exact hg
  | cons op rest ih =>
    simp only [calls] at h
    cases hcall : g.call op with
    | ok g1 =>
      rw [hcall] at h
      exact ih (WF_call hg (Or.inl hcall)) h
    | raised g1 =>
      rw [hcall] at h
      exact ih (WF_call hg (Or.inr hcall)) h
    | terminated =>
      rw [hcall] at h
      exact Option.noConfusion h
    | undefined =>
      rw [hcall] at h
      exact Option.noConfusion h

theorem mem_edges_iff_of_WF {g : Digraph V E} {fromVertex toVertex : Int}
    {x : DigraphVertex V E} (hg : g.WF) (hx : mapFind g.digraphMap fromVertex = some x) :
    (fromVertex, toVertex) ∈ g.edges ↔
      ∃ e ∈ x.edges, e.fromVertex = fromVertex ∧ e.toVertex = toVertex := by
  constructor
  · intro h
    rw [edges_eq, List.mem_flatMap] at h
    obtain ⟨⟨k, w⟩, hp, hmap⟩ := h
    obtain ⟨e, he, hpair⟩ := List.mem_map.1 hmap
    simp only [edgePair, Prod.mk.injEq] at hpair
    have hk : e.fromVertex = k := (hg.2 (k, w) hp).1 e he
    have hkf : k = fromVertex := hk.symm.trans hpair.1
    subst hkf
    have hw : mapFind g.digraphMap k = some w := mapFind_of_mem hg.1 hp
    rw [hx] at hw
    cases hw
    exact ⟨e, he, hpair.1, hpair.2⟩
  · rintro ⟨e, he, h1, h2⟩
    have := mem_edges_of_find hx he
    rwa [h1, h2] at this

theorem nodup_edges_of_WF {g : Digraph V E} (hg : g.WF) : g.edges.Nodup := by
  rw [edges_eq, List.nodup_flatMap]
  constructor
  · intro p hp
    have hwf := hg.2 p hp
    refine List.Nodup.map_on ?_ (List.Nodup.of_map _ hwf.2)
    intro a ha b hb hab
    simp only [edgePair, Prod.mk.injEq] at hab
    exact List.inj_on_of_nodup_map hwf.2 ha hb hab.2
  · refine List.Pairwise.imp_of_mem ?_ hg.1
    intro p q hp hq hlt
    simp only [Function.onFun]
    rw [List.disjoint_left]
    intro a ha hb
    obtain ⟨e1, he1, h1⟩ := List.mem_map.1 ha
    obtain ⟨e2, he2, h2⟩ := List.mem_map.1 hb
    have k1 := (hg.2 p hp).1 e1 he1
    have k2 := (hg.2 q hq).1 e2 he2
    simp only [edgePair] at h1 h2
    have : e1.fromVertex = e2.fromVertex := by
      have := congrArg Prod.fst (h1.trans h2.symm)
      simpa using this
    omega

/-- C9 fails on the code. On the graph with the two vertices 5 and 7 (built
through the interface) vertex 2 is absent, yet addEdge(5, 2, 9) raises nothing:
`find(2)->first` is read through end() and gives the vertex count 2, the test
`== toVertex` holds, and the edge (5,2) is stored.  With the arguments the other
way round, addEdge(2, 5, 9), the test holds as well and the edge list of the
missing vertex 2 is traversed through end().  An absent endpoint that differs
from the vertex count, as in addEdge(5, 3, 9), raises. -/
theorem C9_addEdge_absent_endpoint_returns :
    calls empty buildPair = some graphPair ∧
    (2 : Int) ∉ graphPair.vertices ∧ graphPair.vertexCount = 2 ∧
    graphPair.addEdge 5 2 9 = Effect.ok graphDangling ∧
    graphDangling.edges = [(5, 2)] ∧
    graphPair.addEdge 2 5 9 = Effect.undefined ∧
    graphPair.addEdge 5 3 9 = Effect.raised graphPair := by
  refine ⟨by decide, by decide, by decide, by decide, by decide, by decide, by decide⟩

/-- C10. In every graph reached from the empty graph by a finite run of addVertex,
addEdge, removeVertex and removeEdge calls (whether they return or raise), the
listing edges() holds no pair twice. -/
theorem C10_no_duplicate_edges (ops : List (Op V E)) (g : Digraph V E)
    (h : calls empty ops = some g) : g.edges.Nodup :=
  nodup_edges_of_WF (WF_calls WF_empty h)

/-- C10 at concrete runs: one with a repeated addEdge and an edge tried again
after its target vertex was removed and added back, one with an edge to a missing
vertex stored and tried again. -/
theorem C10_no_duplicate_edges_witness :
    calls empty callsRetry = some graphRetry ∧ graphRetry.edges.Nodup ∧
    calls empty callsDangling = some graphDangling ∧ graphDangling.edges.Nodup :=
  ⟨by decide, C10_no_duplicate_edges callsRetry graphRetry (by decide),
    by decide, C10_no_duplicate_edges callsDangling graphDangling (by decide)⟩

end Digraph

/-! ## Queries: edgeInfo and edgeCount(int) -/

namespace Digraph

variable {V E : Type}

theorem find_match_of_mem {es : List (DigraphEdge E)} {fromVertex toVertex : Int}
    (h : ∃ e ∈ es, e.fromVertex = fromVertex ∧ e.toVertex = toVertex) :
    ∃ e ∈ es, e.fromVertex = fromVertex ∧ e.toVertex = toVertex ∧
      es.find? (fun edge => edge.fromVertex = fromVertex ∧ edge.toVertex = toVertex) = some e := by
  cases hfind : es.find? (fun edge => edge.fromVertex = fromVertex ∧ edge.toVertex = toVertex) with
  | none =>
    exfalso
    rw [List.find?_eq_none] at hfind
    obtain ⟨e, he, hm⟩ := h
    exact hfind e he (by simpa using hm)
  | some e =>
    have hp := List.find?_some hfind
    have hmem := List.mem_of_find?_eq_some hfind
    simp only [decide_eq_true_eq] at hp
    exact ⟨e, hmem, hp.1, hp.2, rfl⟩

/-- C11. On a graph that satisfies the invariant of the table, edgeInfo(fromVertex,
toVertex) raises a DigraphException exactly when fromVertex is absent, or toVertex
is absent, or both are present and (fromVertex, toVertex) is not in edges(); when
both are present and the pair is in edges() it returns the payload kept in the
edge record of that pair in the list of fromVertex.  edgeInfo is a const member
function: it takes the graph and gives back only its outcome. -/
theorem C11_edgeInfo_contract (g : Digraph V E) (hg : g.WF) (fromVertex toVertex : Int) :
    (g.edgeInfo fromVertex toVertex = Outcome.raised ↔
      (fromVertex ∉ g.vertices ∨ toVertex ∉ g.vertices ∨
        (fromVertex ∈ g.vertices ∧ toVertex ∈ g.vertices ∧
          (fromVertex, toVertex) ∉ g.edges))) ∧
    (fromVertex ∈ g.vertices → toVertex ∈ g.vertices → (fromVertex, toVertex) ∈ g.edges →
      ∃ x e, mapFind g.digraphMap fromVertex = some x ∧ e ∈ x.edges ∧
        e.fromVertex = fromVertex ∧ e.toVertex = toVertex ∧
        g.edgeInfo fromVertex toVertex = Outcome.ok e.einfo) := by
  rw [edgeInfo_eq]
  by_cases ht : toVertex ∈ g.vertices
  swap
  · have h0 : mapCount g.digraphMap toVertex = 0 := by
      rw [vertices_eq] at ht
      exact mapCount_eq_zero.2 ht
    simp [h0, ht]
  have h0 : ¬ mapCount g.digraphMap toVertex = 0 := by
    rw [vertices_eq] at ht
    simpa [mapCount_eq_zero] using ht
  rw [if_neg h0]
  cases hx : mapFind g.digraphMap fromVertex with
  | none =>
    have hf : fromVertex ∉ g.vertices := by
      rw [vertices_eq]
      exact mapFind_eq_none.1 hx
    simp [hf]
  | some x =>
    have hf : fromVertex ∈ g.vertices := mem_vertices_iff.2 ⟨x, hx⟩
    by_cases he : (fromVertex, toVertex) ∈ g.edges
    · obtain ⟨e, hmem, h1, h2, hfind⟩ := find_match_of_mem ((mem_edges_iff_of_WF hg hx).1 he)
      simp only [hfind]
      refine ⟨by simp [hf, ht, he], fun _ _ _ => ⟨x, e, rfl, hmem, h1, h2, rfl⟩⟩
    · have hnone : x.edges.find?
          (fun edge => edge.fromVertex = fromVertex ∧ edge.toVertex = toVertex) = none := by
        rw [List.find?_eq_none]
        intro e hmem hm
        exact he ((mem_edges_iff_of_WF hg hx).2 ⟨e, hmem, by simpa using hm⟩)
      simp only [hnone]
      simp [hf, ht, he]

/-- C11 at a concrete input: edgeInfo(1, 3) on the graph with vertices 1, 2, 3
and the edges 1 -> 2 (payload 10), 1 -> 3 (payload 20). -/
theorem C11_edgeInfo_contract_witness :
    graphFork.WF ∧ graphFork.edgeInfo 1 3 = Outcome.ok 20 ∧
    (graphFork.edgeInfo 1 3 = Outcome.raised ↔
      ((1 : Int) ∉ graphFork.vertices ∨ (3 : Int) ∉ graphFork.vertices ∨
        ((1 : Int) ∈ graphFork.vertices ∧ (3 : Int) ∈ graphFork.vertices ∧
          ((1 : Int), (3 : Int)) ∉ graphFork.edges))) ∧
    ((1 : Int) ∈ graphFork.vertices → (3 : Int) ∈ graphFork.vertices →
      ((1 : Int), (3 : Int)) ∈ graphFork.edges →
      ∃ x e, mapFind graphFork.digraphMap 1 = some x ∧ e ∈ x.edges ∧
        e.fromVertex = 1 ∧ e.toVertex = 3 ∧
        graphFork.edgeInfo 1 3 = Outcome.ok e.einfo) :=
  ⟨by decide, by decide, C11_edgeInfo_contract graphFork (by decide) 1 3⟩

/-- C12 fails on the code. Vertex 2 is not in the graph with the single vertex 1,
and edgeCount(2) evaluates `digraphMap.find(2)->second.edges.size()` through the
past-the-end iterator: nothing is thrown, the caller gets unspecified data.  No
input makes edgeCount(int) raise; for a present vertex it returns the length of
its list. -/
theorem C12_edgeCountOf_absent_not_raised :
    (2 : Int) ∉ graphSingle.vertices ∧
    graphSingle.edgeCountOf 2 = Outcome.unspecified ∧
    (∀ (g : Digraph Nat Nat) (v : Int), g.edgeCountOf v ≠ Outcome.raised) ∧
    graphFork.edgeCountOf 1 = Outcome.ok 2 := by
  refine ⟨by decide, by decide, ?_, by decide⟩
  intro g v
  unfold edgeCountOf
  cases mapFind g.digraphMap v <;> simp

end Digraph

/-! ## Errors leave the graph as it was -/

namespace Digraph

variable {V E : Type}

/-- C13. Whenever a call of addVertex, addEdge, removeVertex or removeEdge raises
a DigraphException, the graph it leaves behind is the graph it was given: same
table, so same vertices, payloads, edge lists and edge payloads. -/
theorem C13_raise_leaves_graph (g s : Digraph V E) (op : Op V E)
    (h : g.call op = Effect.raised s) : s = g := by
  cases op with
  | addVertex vertex vinfo =>
    simp only [call, addVertex] at h
    split_ifs at h
  | addEdge fromVertex toVertex einfo =>
    simp only [call, addEdge] at h
    split_ifs at h with hkeys
    · cases hx : mapFind g.digraphMap fromVertex with
      | none => simp [hx] at h
      | some x =>
        simp only [hx] at h
        split_ifs at h
        simp at h
        exact h.symm
    · simp at h
      exact h.symm
  | removeVertex vertex =>
    simp only [call, removeVertex] at h
    split_ifs at h
    simp at h
    exact h.symm
  | removeEdge fromVertex toVertex =>
    simp only [call, removeEdge] at h
    split_ifs at h
    · simp at h
      exact h.symm
    · split at h
      · simp at h
        exact h.symm
      · split_ifs at h
        simp at h
        exact h.symm

/-- C13 at concrete inputs: on the graph with vertices 1, 2, 3 and the edge
1 -> 2, the calls addEdge(1, 2, 7), removeVertex(9) and removeEdge(2, 3) raise. -/
theorem C13_raise_leaves_graph_witness :
    graphOneEdge.call (Op.addEdge 1 2 7) = Effect.raised graphOneEdge ∧
    graphOneEdge.call (Op.removeVertex 9) = Effect.raised graphOneEdge ∧
    graphOneEdge.call (Op.removeEdge 2 3) = Effect.raised graphOneEdge ∧
    graphOneEdge = graphOneEdge :=
  ⟨by decide, by decide, by decide,
    C13_raise_leaves_graph graphOneEdge graphOneEdge (Op.addEdge 1 2 7) (by decide)⟩

end Digraph

/-! ## Copying and moving -/

namespace Digraph

variable {V E : Type}

theorem Store.set_same (h : Store V E) (a : Nat) (g : Digraph V E) : h.set a g a = g := by
  simp [Store.set]

theorem Store.set_other (h : Store V E) {a b : Nat} (g : Digraph V E) (hb : b ≠ a) :
    h.set a g b = h b := by
  simp [Store.set, hb]

/-- C14. Move construction from S gives a new graph with the table of S and
leaves S with no vertices and no edges.  Move assignment of the object at address
d into a different object at address self gives self the table d had, whatever
self held before, leaves d with no vertices and no edges, and touches no other
object. -/
theorem C14_move_transfers_table (h : Store V E) (self d : Nat) (hne : self ≠ d) :
    (moveConstruct (h d)).1 = h d ∧
    (moveConstruct (h d)).2 = empty ∧
    (moveConstruct (h d)).2.vertexCount = 0 ∧ (moveConstruct (h d)).2.edgeCount = 0 ∧
    moveAssign h self d self = h d ∧
    moveAssign h self d d = empty ∧
    (moveAssign h self d d).vertexCount = 0 ∧ (moveAssign h self d d).edgeCount = 0 ∧
    ∀ a, a ≠ self → a ≠ d → moveAssign h self d a = h a := by
  have hd : d ≠ self := fun e => hne e.symm
  have hA : moveAssign h self d self = h d := by
    simp [moveAssign, hne, Store.set, hd]
  have hB : moveAssign h self d d = empty := by
    simp [moveAssign, hne, Store.set, empty]
  refine ⟨rfl, rfl, rfl, rfl, hA, hB, ?_, ?_, ?_⟩
  · rw [hB]
    rfl
  · rw [hB]
    rfl
  · intro a ha1 ha2
    simp [moveAssign, hne, Store.set, ha1, ha2]

/-- C14 at a concrete input: the object at address 0 (graphFork) moved into the
object at address 1 (graphOneEdge). -/
theorem C14_move_transfers_table_witness :
    (1 : Nat) ≠ 0 ∧
    (moveConstruct (storeTwo 0)).1 = storeTwo 0 ∧
    (moveConstruct (storeTwo 0)).2 = empty ∧
    (moveConstruct (storeTwo 0)).2.vertexCount = 0 ∧
    (moveConstruct (storeTwo 0)).2.edgeCount = 0 ∧
    moveAssign storeTwo 1 0 1 = storeTwo 0 ∧
    moveAssign storeTwo 1 0 0 = empty ∧
    (moveAssign storeTwo 1 0 0).vertexCount = 0 ∧ (moveAssign storeTwo 1 0 0).edgeCount = 0 ∧
    ∀ a, a ≠ 1 → a ≠ 0 → moveAssign storeTwo 1 0 a = storeTwo a :=
  ⟨by decide, C14_move_transfers_table storeTwo 1 0 (by decide)⟩

theorem callsAt_other {h h2 : Store V E} {a b : Nat} {ops : List (Op V E)}
    (hc : callsAt h a ops = some h2) (hb : b ≠ a) : h2 b = h b := by
  unfold callsAt at hc
  cases hr : calls (h a) ops with
  | none => simp [hr] at hc
  | some g =>
    simp [hr] at hc
    subst hc
    exact Store.set_other h g hb

/-- C15. A copy has the table of its source, hence the same vertices(), edges()
and payloads, whether made by the copy constructor or by copy assignment into a
different object, whatever that object held.  Any run of addVertex / addEdge /
removeVertex / removeEdge calls on the copy leaves the source as it was.  Copy
assignment of an object to itself changes nothing. -/
theorem C15_copy_independent (h : Store V E) (self d : Nat) (hne : self ≠ d) :
    copyConstruct (h d) = h d ∧
    copyAssign h self d self = h d ∧
    (copyAssign h self d self).vertices = (h d).vertices ∧
    (copyAssign h self d self).edges = (h d).edges ∧
    copyAssign h self d d = h d ∧
    (∀ (ops : List (Op V E)) (h2 : Store V E),
      callsAt (copyAssign h self d) self ops = some h2 →
        h2 d = h d ∧ (h2 d).vertices = (h d).vertices ∧ (h2 d).edges = (h d).edges) ∧
    (∀ (ops : List (Op V E)) (h2 : Store V E),
      callsAt (h.set self (copyConstruct (h d))) self ops = some h2 →
        h2 d = h d ∧ (h2 d).vertices = (h d).vertices ∧ (h2 d).edges = (h d).edges) ∧
    copyAssign h d d = h := by
  have hd : d ≠ self := fun e => hne e.symm
  have hA : copyAssign h self d self = h d := by
    simp [copyAssign, hne, Store.set, hd]
  have hB : copyAssign h self d d = h d := by
    simp [copyAssign, hne, Store.set, hd]
  refine ⟨rfl, hA, by rw [hA], by rw [hA], hB, ?_, ?_, ?_⟩
  · intro ops h2 hc
    have h3 : h2 d = h d := (callsAt_other hc hd).trans hB
    exact ⟨h3, by rw [h3], by rw [h3]⟩
  · intro ops h2 hc
    have h3 : h2 d = h d := (callsAt_other hc hd).trans (Store.set_other h _ hd)
    exact ⟨h3, by rw [h3], by rw [h3]⟩
  · simp [copyAssign]

/-- C15 at a concrete input: the object at address 0 (graphFork) copied into the
object at address 1 (graphOneEdge); the copy then loses vertex 3 and its edges
out of vertex 1 while the source keeps its two edges. -/
theorem C15_copy_independent_witness :
    (1 : Nat) ≠ 0 ∧
    (∃ h2, callsAt (copyAssign storeTwo 1 0) 1 [Op.removeVertex 3, Op.removeEdge 1 2] = some h2 ∧
      (h2 1).edges = [] ∧ (h2 0).edges = [(1, 2), (1, 3)]) ∧
    copyConstruct (storeTwo 0) = storeTwo 0 ∧
    copyAssign storeTwo 1 0 1 = storeTwo 0 ∧
    (copyAssign storeTwo 1 0 1).vertices = (storeTwo 0).vertices ∧
    (copyAssign storeTwo 1 0 1).edges = (storeTwo 0).edges ∧
    copyAssign storeTwo 1 0 0 = storeTwo 0 ∧
    (∀ (ops : List (Op Unit Nat)) (h2 : Store Unit Nat),
      callsAt (copyAssign storeTwo 1 0) 1 ops = some h2 →
        h2 0 = storeTwo 0 ∧ (h2 0).vertices = (storeTwo 0).vertices ∧
          (h2 0).edges = (storeTwo 0).edges) ∧
    (∀ (ops : List (Op Unit Nat)) (h2 : Store Unit Nat),
      callsAt (storeTwo.set 1 (copyConstruct (storeTwo 0))) 1 ops = some h2 →
        h2 0 = storeTwo 0 ∧ (h2 0).vertices = (storeTwo 0).vertices ∧
          (h2 0).edges = (storeTwo 0).edges) ∧
    copyAssign storeTwo 0 0 = storeTwo :=
  ⟨by decide, ⟨_, rfl, by decide, by decide⟩,
    C15_copy_independent storeTwo 1 0 (by decide)⟩

end Digraph

/-! ## The algorithms: isStronglyConnected and findShortestPaths -/

namespace Digraph

variable {V E : Type}

theorem graphCycle_connected : graphCycle.specStronglyConnected := by
  have e12 : graphCycle.specReaches 1 2 := Relation.ReflTransGen.single (by decide)
  have e23 : graphCycle.specReaches 2 3 := Relation.ReflTransGen.single (by decide)
  have e31 : graphCycle.specReaches 3 1 := Relation.ReflTransGen.single (by decide)
  have hv : graphCycle.vertices = [1, 2, 3] := by decide
  intro u hu w hw
  rw [hv] at hu hw
  simp only [List.mem_cons, List.mem_singleton, List.not_mem_nil, or_false] at hu hw
  rcases hu with rfl | rfl | rfl <;> rcases hw with rfl | rfl | rfl
  · exact Relation.ReflTransGen.refl
  · exact e12
  · exact e12.trans e23
  · exact e23.trans e31
  · exact Relation.ReflTransGen.refl
  · exact e23
  · exact e31
  · exact e31.trans e12
  · exact Relation.ReflTransGen.refl

/-- C16 fails on the code. The graph with vertices 1, 2, 3 and the cycle
1 -> 2 -> 3 -> 1 (built through the interface) has a directed path between every
ordered pair of vertices, and isStronglyConnected() returns false on it, as it does
on every graph. -/
theorem C16_isStronglyConnected_false_on_cycle :
    calls empty buildCycle = some graphCycle ∧
    graphCycle.specStronglyConnected ∧
    graphCycle.isStronglyConnected = false :=
  ⟨by decide, graphCycle_connected, rfl⟩

/-- C17 fails on the code. isStronglyConnected() returns false on the empty graph
and on the graph with the single vertex 1, both of which have a path between every
ordered pair of their vertices; it returns false on every graph. -/
theorem C17_isStronglyConnected_false_on_small :
    (empty : Digraph Nat Nat).isStronglyConnected = false ∧
    (empty : Digraph Nat Nat).specStronglyConnected ∧
    graphSingle.isStronglyConnected = false ∧
    graphSingle.specStronglyConnected ∧
    ∀ g : Digraph Nat Nat, g.isStronglyConnected = false := by
  refine ⟨rfl, ?_, rfl, ?_, fun _ => rfl⟩
  · intro u hu
    simp [vertices, empty] at hu
  · intro u hu w hw
    have hv : graphSingle.vertices = [1] := by decide
    rw [hv] at hu hw
    simp only [List.mem_singleton] at hu hw
    subst hu
    subst hw
    exact Relation.ReflTransGen.refl

/-- C18 fails on the code. On the graph with vertices 1, 2, 3, 4 and the edges
1 -> 2 (1), 2 -> 3 (2), 1 -> 3 (5), 3 -> 4 (1), findShortestPaths(1, weight)
returns the empty map, not the map 1:1, 2:1, 3:2, 4:3; the start vertex is not
even a key. -/
theorem C18_findShortestPaths_returns_empty :
    calls empty buildPaths = some graphPaths ∧
    graphPaths.findShortestPaths 1 weightOf = Outcome.ok [] ∧
    graphPaths.findShortestPaths 1 weightOf ≠ Outcome.ok [(1, 1), (2, 1), (3, 2), (4, 3)] ∧
    graphSingle.findShortestPaths 1 weightOf ≠ Outcome.ok [(1, 1)] := by
  refine ⟨by decide, rfl, ?_, ?_⟩ <;> simp [findShortestPaths]

/-- C19. For a start vertex s in the graph and a vertex k with no directed path
from s, findShortestPaths(s, weight) returns a map and k is not one of its keys. -/
theorem C19_unreachable_not_key (g : Digraph V E) (s k : Int) (w : E → ℚ)
    (_hs : s ∈ g.vertices) (_hk : ¬ g.specReaches s k) :
    ∃ m, g.findShortestPaths s w = Outcome.ok m ∧ k ∉ m.map Prod.fst :=
  ⟨[], rfl, by simp⟩

theorem graphIsolated_unreachable : ¬ graphIsolated.specReaches 1 5 := by
  intro h
  have he : graphIsolated.edges = [(1, 2), (1, 3), (2, 3), (3, 4)] := by decide
  rcases Relation.ReflTransGen.cases_tail h with h1 | ⟨c, _, hc⟩
  · exact absurd h1 (by decide)
  · rw [he] at hc
    simp at hc

/-- C19 at a concrete input: start 1 and the isolated vertex 5 added to the graph
of the shortest-path example. -/
theorem C19_unreachable_not_key_witness :
    (1 : Int) ∈ graphIsolated.vertices ∧ ¬ graphIsolated.specReaches 1 5 ∧
    ∃ m, graphIsolated.findShortestPaths 1 weightOf = Outcome.ok m ∧
      (5 : Int) ∉ m.map Prod.fst :=
  ⟨by decide, graphIsolated_unreachable,
    C19_unreachable_not_key graphIsolated 1 5 weightOf (by decide) graphIsolated_unreachable⟩

/-- C20 fails on the code. Vertex 9 is not in the graph of the shortest-path
example, and findShortestPaths(9, weight) returns the empty map; no input makes
findShortestPaths raise. -/
theorem C20_findShortestPaths_absent_start_returns :
    (9 : Int) ∉ graphPaths.vertices ∧
    graphPaths.findShortestPaths 9 weightOf = Outcome.ok [] ∧
    ∀ (g : Digraph Unit Nat) (s : Int) (w : Nat → ℚ),
      g.findShortestPaths s w ≠ Outcome.raised := by
  refine ⟨by decide, rfl, ?_⟩
  intro g s w
  simp [findShortestPaths]

end Digraph

/-! ## What removeEdge does, and the counts against the listings -/

namespace Digraph

variable {V E : Type}

theorem OwnEdges_of_WF {g : Digraph V E} (hg : g.WF) : g.OwnEdges :=
  fun p hp => (hg.2 p hp).1

theorem filter_own_edges {es : List (DigraphEdge E)} {fromVertex toVertex : Int}
    (h : ∀ e ∈ es, e.fromVertex = fromVertex) :
    es.filter (fun edge => edge.fromVertex ≠ fromVertex ∧ edge.fromVertex ≠ toVertex) = [] := by
  rw [List.filter_eq_nil_iff]
  intro e he
  simp [h e he]

theorem removeEdge_of_own {g : Digraph V E} {fromVertex toVertex : Int}
    {x y : DigraphVertex V E} (hx : mapFind g.digraphMap fromVertex = some x)
    (hy : mapFind g.digraphMap toVertex = some y)
    (hown : ∀ e ∈ x.edges, e.fromVertex = fromVertex) :
    g.removeEdge fromVertex toVertex =
      if x.edges.length = 0 then Effect.raised g
      else Effect.ok ⟨mapModify g.digraphMap fromVertex (fun w => { w with edges := [] })⟩ := by
  have h1 : ¬ (mapCount g.digraphMap fromVertex = 0 ∨ mapCount g.digraphMap toVertex = 0) := by
    simp [mapCount, hx, hy]
  simp only [removeEdge, if_neg h1, hx, filter_own_edges hown, List.length_nil]

/-- C21. On a graph in which every edge kept under a vertex has that vertex as
its fromVertex, and with fromVertex and toVertex both present, removeEdge returns
normally exactly when fromVertex has at least one outgoing edge, whatever their
targets, and raises otherwise.  After a normal return fromVertex has no outgoing
edge left, every other vertex has the record it had, and vertices() and the
payloads are as before. -/
theorem C21_removeEdge_clears_list (g : Digraph V E) (hown : g.OwnEdges)
    (fromVertex toVertex : Int) (hf : fromVertex ∈ g.vertices) (ht : toVertex ∈ g.vertices) :
    ∃ n, g.edgeCountOf fromVertex = Outcome.ok n ∧
      ((∃ s, g.removeEdge fromVertex toVertex = Effect.ok s) ↔ 0 < n) ∧
      (n = 0 → g.removeEdge fromVertex toVertex = Effect.raised g) ∧
      ∀ s, g.removeEdge fromVertex toVertex = Effect.ok s →
        s.edgeCountOf fromVertex = Outcome.ok 0 ∧
        s.edgesOf fromVertex = Outcome.ok [] ∧
        (∀ v, v ≠ fromVertex → mapFind s.digraphMap v = mapFind g.digraphMap v) ∧
        (∀ v, v ≠ fromVertex → s.edgesOf v = g.edgesOf v ∧ s.edgeCountOf v = g.edgeCountOf v) ∧
        s.vertices = g.vertices ∧
        (∀ v, s.vertexInfo v = g.vertexInfo v) := by
  obtain ⟨x, hx⟩ := mem_vertices_iff.1 hf
  obtain ⟨y, hy⟩ := mem_vertices_iff.1 ht
  have hr : g.removeEdge fromVertex toVertex = _ := removeEdge_of_own hx hy
    (fun e he => hown (fromVertex, x) (mapFind_mem hx) e he)
  refine ⟨x.edges.length, by simp [edgeCountOf, hx], ?_, ?_, ?_⟩
  · rw [hr]
    by_cases h0 : x.edges.length = 0
    · simp [h0]
    · simp [h0, Nat.pos_of_ne_zero h0]
  · intro h0
    rw [hr, if_pos h0]
  · intro s hs
    rw [hr] at hs
    by_cases h0 : x.edges.length = 0
    · simp [h0] at hs
    · simp only [if_neg h0, Effect.ok.injEq] at hs
      subst hs
      have hself : mapFind (mapModify g.digraphMap fromVertex
          (fun w : DigraphVertex V E => { w with edges := [] })) fromVertex
          = some { x with edges := [] } := by
        simp [mapFind_mapModify_self, hx]
      have hother : ∀ v, v ≠ fromVertex → mapFind (mapModify g.digraphMap fromVertex
          (fun w : DigraphVertex V E => { w with edges := [] })) v = mapFind g.digraphMap v :=
        fun v hv => mapFind_mapModify_ne (fun e => hv e.symm)
      refine ⟨by simp [edgeCountOf, hself], by simp [edgesOf_of_found hself], hother,
        ?_, ?_, ?_⟩
      · intro v hv
        exact ⟨edgesOf_congr length_mapModify (hother v hv),
          by simp only [edgeCountOf, hother v hv]⟩
      · rw [vertices_eq, vertices_eq]
        exact keys_mapModify
      · intro v
        apply vertexInfo_congr length_mapModify
        by_cases hv : v = fromVertex
        · subst hv
          rw [hself, hx]
          rfl
        · rw [hother v hv]

/-- C21 at a concrete input: removeEdge(1, 3) on the graph with vertices 1, 2, 3
and the single edge 1 -> 2. -/
theorem C21_removeEdge_clears_list_witness :
    graphOneEdge.OwnEdges ∧ (1 : Int) ∈ graphOneEdge.vertices ∧
    (3 : Int) ∈ graphOneEdge.vertices ∧ ((1 : Int), (3 : Int)) ∉ graphOneEdge.edges ∧
    ∃ n, graphOneEdge.edgeCountOf 1 = Outcome.ok n ∧
      ((∃ s, graphOneEdge.removeEdge 1 3 = Effect.ok s) ↔ 0 < n) ∧
      (n = 0 → graphOneEdge.removeEdge 1 3 = Effect.raised graphOneEdge) ∧
      ∀ s, graphOneEdge.removeEdge 1 3 = Effect.ok s →
        s.edgeCountOf 1 = Outcome.ok 0 ∧
        s.edgesOf 1 = Outcome.ok [] ∧
        (∀ v, v ≠ 1 → mapFind s.digraphMap v = mapFind graphOneEdge.digraphMap v) ∧
        (∀ v, v ≠ 1 → s.edgesOf v = graphOneEdge.edgesOf v ∧
          s.edgeCountOf v = graphOneEdge.edgeCountOf v) ∧
        s.vertices = graphOneEdge.vertices ∧
        (∀ v, s.vertexInfo v = graphOneEdge.vertexInfo v) :=
  ⟨by decide, by decide, by decide, by decide,
    C21_removeEdge_clears_list graphOneEdge (by decide) 1 3 (by decide) (by decide)⟩

theorem length_edges (g : Digraph V E) :
    g.edges.length = (g.digraphMap.map (fun vertex => vertex.2.edges.length)).sum := by
  rw [edges_eq]
  induction g.digraphMap with
  | nil => simp
  | cons p rest ih => simp [List.flatMap_cons, ih]

theorem edgeCountOf_keys {g : Digraph V E} (hg : g.WF) :
    g.vertices.map g.edgeCountOf
      = (g.digraphMap.map (fun vertex => vertex.2.edges.length)).map Outcome.ok := by
  rw [vertices_eq, List.map_map, List.map_map]
  apply List.map_congr_left
  intro p hp
  have hfind : mapFind g.digraphMap p.1 = some p.2 := mapFind_of_mem hg.1 hp
  simp [edgeCountOf, hfind]

/-- C22. In every graph reached from the empty graph by a finite run of addVertex,
addEdge, removeVertex and removeEdge calls: vertexCount() is the length of
vertices(); edgeCount() is the length of edges() and the sum of the values that
edgeCount(v) returns over the vertices v of vertices(); and for every present v,
edges(v) returns a list whose length is what edgeCount(v) returns and whose pairs
all have first component v. -/
theorem C22_counts_match_listings (ops : List (Op V E)) (g : Digraph V E)
    (h : calls empty ops = some g) :
    g.vertexCount = g.vertices.length ∧
    g.edgeCount = g.edges.length ∧
    (∃ counts : List Nat,
      g.vertices.map g.edgeCountOf = counts.map Outcome.ok ∧ g.edgeCount = counts.sum) ∧
    ∀ v ∈ g.vertices, ∃ l, g.edgesOf v = Outcome.ok l ∧
      g.edgeCountOf v = Outcome.ok l.length ∧ ∀ p ∈ l, p.1 = v := by
  have hg : g.WF := WF_calls WF_empty h
  refine ⟨?_, ?_, ?_, ?_⟩
  · rw [vertexCount_eq, vertices_eq, List.length_map]
  · rw [edgeCount_eq, length_edges]
  · exact ⟨g.digraphMap.map (fun vertex => vertex.2.edges.length), edgeCountOf_keys hg,
      edgeCount_eq g⟩
  · intro v hv
    obtain ⟨x, hx⟩ := mem_vertices_iff.1 hv
    refine ⟨x.edges.map edgePair, edgesOf_of_found hx, by simp [edgeCountOf, hx], ?_⟩
    intro p hp
    obtain ⟨e, he, rfl⟩ := List.mem_map.1 hp
    exact (hg.2 (v, x) (mapFind_mem hx)).1 e he

/-- C22 at concrete runs: the calls of callsRetry, which reach graphRetry with
three vertices and three edges, and the calls of callsDangling, which reach
graphDangling with two vertices and one edge. -/
theorem C22_counts_match_listings_witness :
    calls empty callsRetry = some graphRetry ∧
    graphRetry.vertexCount = 3 ∧ graphRetry.edgeCount = 3 ∧
    calls empty callsDangling = some graphDangling ∧
    graphDangling.vertexCount = 2 ∧ graphDangling.edgeCount = 1 ∧
    graphRetry.vertexCount = graphRetry.vertices.length ∧
    graphRetry.edgeCount = graphRetry.edges.length ∧
    (∃ counts : List Nat,
      graphRetry.vertices.map graphRetry.edgeCountOf = counts.map Outcome.ok ∧
        graphRetry.edgeCount = counts.sum) ∧
    ∀ v ∈ graphRetry.vertices, ∃ l, graphRetry.edgesOf v = Outcome.ok l ∧
      graphRetry.edgeCountOf v = Outcome.ok l.length ∧ ∀ p ∈ l, p.1 = v :=
  ⟨by decide, by decide, by decide, by decide, by decide, by decide,
    C22_counts_match_listings callsRetry graphRetry (by decide)⟩

end Digraph

end DigraphHpp
